import Mathlib

/-
Verification of the Version Resolution and Channel Inference Engine of the
holomotion-installer program (src/main.rs).

The engine is embedded shallowly:
- `Channel`, `Version` mirror the Rust data types (u32 fields become `Nat`;
  overflow is checked explicitly against `U32_MAX` where the Rust code calls
  `str::parse::<u32>`).
- The two anchored regexes of `Version::parse` are embedded as deterministic
  scanners (`dateCaptures`, `semverCaptures`); determinism is justified because
  in both patterns every quantified class is disjoint from the following
  literal, so the greedy match is forced.  `\d` is modelled as an ASCII digit
  and the identifier class `[0-9A-Za-z\-\.]` as ASCII alphanumerics plus
  `-` and `.`.
- `extract_version_from_git_describe` is embedded step by step over `List Char`
  (`stripRefsTags`, `afterLastSlash`, `stripGitSuffix`, `stripLeadingV`).
  The regex replacement of `-\d+-g[a-f0-9]+$` replaces the leftmost match; a
  match of this end-anchored pattern runs to the end of the string, so the
  replacement keeps the prefix before the first position whose whole remaining
  suffix matches the pattern, and drops the rest.
- `get_latest_version` processes the two tag listings supplied by the git
  collaborator (`git ls-remote --tags --refs origin` lines and
  `git tag -l --sort=-version:refname` lines) as `List String` inputs;
  `versions.sort()` followed by `versions.last().unwrap()` is embedded as
  `selectLatest` (a fold that keeps a maximum, resolving comparator ties to the
  later element, exactly the last element of a stable sort), with the `unwrap`
  on an empty list represented by the `ResolveResult.panicUnwrap` outcome.
- `get_current_channel` and the channel fallback of `execute_action` are
  embedded over explicit inputs: the optional content of the branch marker
  file, whether the repository exists, whether the tag fetch succeeded, and
  the optional output of `git describe --tags`.
-/

namespace HoloMotion

/-! ## Channel (src/main.rs lines 14-35) -/

/-- The two release channels, mirroring `enum Channel { Master, Release }`. -/
inductive Channel
  | Master
  | Release
deriving DecidableEq, Repr

/-- `str::to_lowercase`, modelled character-wise (ASCII-faithful). -/
def toLowerStr (s : String) : String :=
  ⟨s.data.map Char.toLower⟩

/-- `str::trim`: drop whitespace from both ends, modelled over the character
list (ASCII-faithful). -/
def trimStr (s : String) : String :=
  ⟨((s.data.dropWhile Char.isWhitespace).reverse.dropWhile
    Char.isWhitespace).reverse⟩

/-- `Channel::from_str`: case-insensitive parse of a channel label, any other
label is an error carrying the message built by the Rust `anyhow!` format. -/
def Channel.fromStr (s : String) : Except String Channel :=
  if toLowerStr s = "master" then .ok .Master
  else if toLowerStr s = "release" then .ok .Release
  else .error ("Invalid channel: " ++ s ++ ". Available channels: master, release")

/-- `Channel::as_str`. -/
def Channel.asStr : Channel → String
  | .Master => "master"
  | .Release => "release"

/-! ## Version data type (src/main.rs lines 130-138) -/

/-- Mirror of `struct Version`; `u32` fields are embedded as `Nat` (parsing
enforces the `u32` bound explicitly). -/
structure Version where
  major : Nat
  minor : Nat
  patch : Nat
  pre_release : Option String
  build_metadata : Option String
  raw : String
deriving DecidableEq, Repr

/-- Replace the `build_metadata` field (used to state build-metadata
independence). -/
def Version.withBuild (v : Version) (bm : Option String) : Version :=
  { v with build_metadata := bm }

/-- The derived `PartialEq`/`Eq` of `struct Version`: field-wise equality over
all six fields (including `build_metadata` and `raw`). -/
def versionBeq (a b : Version) : Bool :=
  a.major == b.major && a.minor == b.minor && a.patch == b.patch &&
    a.pre_release == b.pre_release && a.build_metadata == b.build_metadata &&
    a.raw == b.raw

/-! ## Version grammar (src/main.rs lines 141-169) -/

/-- Largest value of a Rust `u32`. -/
def U32_MAX : Nat := 4294967295

/-- Error outcomes of `Version::parse`: the explicit
`anyhow!("Invalid version format: {}", s)` error, or the `ParseIntError`
propagated by `?` from `captures[i].parse::<u32>()` when a matched numeric
component overflows `u32`. -/
inductive VersionError
  | invalidFormat (s : String)
  | intParse
deriving DecidableEq, Repr

deriving instance DecidableEq for Except

/-- Scan a maximal nonempty run of ASCII digits (the forced match of a greedy
`\d+` whose follower cannot be a digit); returns the run and the rest. -/
def scanNum (cs : List Char) : Option (List Char × List Char) :=
  let ds := cs.takeWhile Char.isDigit
  if ds.isEmpty then none else some (ds, cs.dropWhile Char.isDigit)

/-- Consume one expected character. -/
def expectChar (c : Char) : List Char → Option (List Char)
  | d :: rest => if d = c then some rest else none
  | [] => none

/-- Captures of the anchored date regex `^(\d+)\.(\d+)\.(\d+)-(\d{8})$`.
Since `\d` is disjoint from `.` and `-`, each greedy `\d+` is forced to be the
maximal digit run, and `(\d{8})$` forces the remainder to be exactly eight
digits. -/
def dateCaptures (s : String) : Option (String × String × String × String) := do
  let (a, r1) ← scanNum s.data
  let r2 ← expectChar '.' r1
  let (b, r3) ← scanNum r2
  let r4 ← expectChar '.' r3
  let (c, r5) ← scanNum r4
  let r6 ← expectChar '-' r5
  if r6.length = 8 && r6.all Char.isDigit then
    some (⟨a⟩, ⟨b⟩, ⟨c⟩, ⟨r6⟩)
  else
    none

/-- The character class `[0-9A-Za-z\-\.]` of the semver regex. -/
def isIdentChar (c : Char) : Bool :=
  c.isAlphanum || c == '-' || c == '.'

/-- Captures of the anchored semver regex
`^(\d+)\.(\d+)\.(\d+)(?:-([0-9A-Za-z\-\.]+))?(?:\+([0-9A-Za-z\-\.]+))?$`.
After the three forced digit runs, the remainder must be empty, or a `-` with
a nonempty pre-release capture (the maximal run of class characters, which the
class being `+`-free makes everything up to the first `+` or the end), or a
`+` with a nonempty all-class build capture running to the end; in the
pre-release case an optional `+`-and-build tail may follow. -/
def semverCaptures (s : String) :
    Option (String × String × String × Option String × Option String) := do
  let (a, r1) ← scanNum s.data
  let r2 ← expectChar '.' r1
  let (b, r3) ← scanNum r2
  let r4 ← expectChar '.' r3
  let (c, r5) ← scanNum r4
  match r5 with
  | [] => some (⟨a⟩, ⟨b⟩, ⟨c⟩, none, none)
  | '-' :: r6 =>
    let pre := r6.takeWhile isIdentChar
    let r7 := r6.dropWhile isIdentChar
    if pre.isEmpty then none
    else
      match r7 with
      | [] => some (⟨a⟩, ⟨b⟩, ⟨c⟩, some ⟨pre⟩, none)
      | '+' :: r8 =>
        if !r8.isEmpty && r8.all isIdentChar then
          some (⟨a⟩, ⟨b⟩, ⟨c⟩, some ⟨pre⟩, some ⟨r8⟩)
        else none
      | _ => none
  | '+' :: r6 =>
    if !r6.isEmpty && r6.all isIdentChar then
      some (⟨a⟩, ⟨b⟩, ⟨c⟩, none, some ⟨r6⟩)
    else none
  | _ => none

/-- Numeric value of an all-digit capture. -/
def digitsToNat (cs : List Char) : Nat :=
  cs.foldl (fun acc c => acc * 10 + (c.toNat - 48)) 0

/-- `captures[i].parse::<u32>()?` on an all-digit capture: succeeds with the
value when it fits in `u32`, otherwise propagates a `ParseIntError`. -/
def parseU32 (s : String) : Except VersionError Nat :=
  if digitsToNat s.data ≤ U32_MAX then .ok (digitsToNat s.data)
  else .error .intParse

/-- `Version::parse`: try the date grammar first, then the semver grammar;
inside a matched branch the numeric captures are converted with `?`, so an
overflow aborts the whole parse without trying the other grammar; if neither
regex matches the anchored input the "Invalid version format" error carrying
the input is returned.  `raw` is set to the input string. -/
def Version.parse (s : String) : Except VersionError Version :=
  match dateCaptures s with
  | some (a, b, c, d) =>
    match parseU32 a with
    | .error e => .error e
    | .ok major =>
      match parseU32 b with
      | .error e => .error e
      | .ok minor =>
        match parseU32 c with
        | .error e => .error e
        | .ok patch => .ok ⟨major, minor, patch, some d, none, s⟩
  | none =>
    match semverCaptures s with
    | some (a, b, c, pre, build) =>
      match parseU32 a with
      | .error e => .error e
      | .ok major =>
        match parseU32 b with
        | .error e => .error e
        | .ok minor =>
          match parseU32 c with
          | .error e => .error e
          | .ok patch => .ok ⟨major, minor, patch, pre, build, s⟩
    | none => .error (.invalidFormat s)

/-- `Version::is_release`. -/
def Version.is_release (v : Version) : Bool :=
  v.pre_release.isNone

/-- `Version::is_date_version`: the pre-release part is present, eight
characters long, and all ASCII digits.  (Rust measures `len()` in bytes; the
two measures agree whenever the all-ASCII-digit conjunct can hold.) -/
def Version.is_date_version (v : Version) : Bool :=
  match v.pre_release with
  | some pr => pr.length == 8 && pr.data.all Char.isDigit
  | none => false

/-! ## Version ordering (src/main.rs lines 182-217) -/

/-- Sequencing of the early-return `match ... { Ordering::Equal => {}, other =>
return other }` chain of `Ord for Version`: the second comparison only matters
when the first is `Equal`. -/
def ordThen (o1 o2 : Ordering) : Ordering :=
  match o1 with
  | .eq => o2
  | o => o

/-- `u32::cmp` on the embedded `Nat` values. -/
def natCmp (a b : Nat) : Ordering :=
  if a < b then .lt else if b < a then .gt else .eq

/-- `String::cmp` is lexicographic on UTF-8 bytes, which orders strings the
same way as lexicographic comparison of their scalar-value sequences. -/
def charListCmp : List Char → List Char → Ordering
  | [], [] => .eq
  | [], _ :: _ => .lt
  | _ :: _, [] => .gt
  | x :: xs, y :: ys => ordThen (natCmp x.toNat y.toNat) (charListCmp xs ys)

/-- `String::cmp`. -/
def strCmp (a b : String) : Ordering :=
  charListCmp a.data b.data

/-- The `pre_release` comparison arm of `Ord for Version`: a release
(`None`) is greater than any pre-release; two pre-releases are compared as
strings (the `is_date_version` test in the source selects the same string
comparison on both branches, and is kept here as in the source). -/
def preCmp (a b : Version) : Ordering :=
  match a.pre_release, b.pre_release with
  | none, none => .eq
  | none, some _ => .gt
  | some _, none => .lt
  | some x, some y =>
    if a.is_date_version && b.is_date_version then strCmp x y else strCmp x y

/-- `Ord::cmp for Version`: major, then minor, then patch, then the
pre-release arm; `build_metadata` and `raw` are never read. -/
def versionCmp (a b : Version) : Ordering :=
  ordThen (natCmp a.major b.major)
    (ordThen (natCmp a.minor b.minor)
      (ordThen (natCmp a.patch b.patch) (preCmp a b)))

/-! ## Describe normalizer (src/main.rs lines 732-752) -/

/-- The prefix literal `refs/tags/`. -/
def refsTagsPat : List Char :=
  ['r', 'e', 'f', 's', '/', 't', 'a', 'g', 's', '/']

/-- `strip_prefix("refs/tags/")` guarded by `starts_with`. -/
def stripRefsTags (cs : List Char) : List Char :=
  if cs.take 10 = refsTagsPat then cs.drop 10 else cs

/-- The `contains('/')`-guarded `split('/').last()` step: keep only the text
after the last `/` (a string without `/` is returned unchanged, exactly as
the guarded Rust block leaves it unchanged). -/
def afterLastSlash : List Char → List Char
  | [] => []
  | c :: rest =>
    if c = '/' then afterLastSlash rest
    else if '/' ∈ rest then afterLastSlash rest
    else c :: rest

/-- The class `[a-f0-9]` of the git-describe suffix regex. -/
def isHexLower (c : Char) : Bool :=
  c.isDigit || ('a' ≤ c && c ≤ 'f')

/-- Whether a whole string matches `-\d+-g[a-f0-9]+$` from its first character
to its end; the digit run is forced maximal because `\d` is disjoint from
`-`. -/
def matchGitSuffix : List Char → Bool
  | '-' :: rest =>
    let ds := rest.takeWhile Char.isDigit
    let r2 := rest.dropWhile Char.isDigit
    !ds.isEmpty &&
      (match r2 with
       | '-' :: 'g' :: hs => !hs.isEmpty && hs.all isHexLower
       | _ => false)
  | _ => false

/-- `Regex::replace` of the end-anchored `-\d+-g[a-f0-9]+$` by the empty
string: every match of an end-anchored pattern runs to the end, so the
leftmost match is found at the first position whose whole remaining suffix
matches, and replacing it keeps the preceding prefix. -/
def stripGitSuffix : List Char → List Char
  | [] => []
  | c :: rest =>
    if matchGitSuffix (c :: rest) then [] else c :: stripGitSuffix rest

/-- The `starts_with('v') && len() > 1` strip of a single leading `v`. -/
def stripLeadingV (cs : List Char) : List Char :=
  match cs with
  | [] => []
  | c :: rest => if c == 'v' && !rest.isEmpty then rest else c :: rest

/-- `extract_version_from_git_describe` (total: the Rust function always
returns `Ok`): strip a `refs/tags/` prefix, keep the last `/`-segment, strip
one trailing `-N-gHEX` describe suffix, strip one leading `v`. -/
def extract_version_from_git_describe (s : String) : String :=
  ⟨stripLeadingV (stripGitSuffix (afterLastSlash (stripRefsTags s.data)))⟩

/-! ## Channel classification and reading (src/main.rs lines 683-730, 1338-1340) -/

/-- The channel-from-shape policy of `get_current_channel` (lines 714-724):
date version => Release, plain release => Master, other pre-release =>
Release. -/
def classifyChannel (v : Version) : Channel :=
  if v.is_date_version then Channel.Release
  else if v.is_release then Channel.Master
  else Channel.Release

/-- The `if let Ok(parsed_version) = Version::parse(&version)` wrapper around
`classifyChannel`: an unparsable normalized describe string falls back to
`Release`. -/
def channelFromDescribe (version : String) : Channel :=
  match Version.parse version with
  | .ok pv => classifyChannel pv
  | .error _ => Channel.Release

/-- `get_current_channel` over its external inputs: the optional content of
the branch marker file (`Some` iff the file exists), whether the program
repository exists, whether the remote tag fetch succeeded, and the optional
trimmed-later stdout of `git describe --tags` (`Some` iff the command
succeeded).  The marker, when present, is trimmed and parsed and its result
(including the invalid-label error) returned directly; otherwise the channel
is inferred from the normalized describe output and returned (the write of
the inferred channel back to the marker file is a side effect outside this
value-level model). -/
def get_current_channel (marker : Option String) (reposExist fetchOk : Bool)
    (describeOut : Option String) : Except String Channel :=
  match marker with
  | some content => Channel.fromStr (trimStr content)
  | none =>
    if !reposExist then
      .error "Application not installed. Please use --install first!"
    else if !fetchOk then
      .error "Failed to fetch tags"
    else
      match describeOut with
      | none => .error "Failed to get git describe output"
      | some out =>
        .ok (channelFromDescribe
          (extract_version_from_git_describe (trimStr out)))

/-- The channel determination of `execute_action` (lines 1338-1340):
`config.channel.clone().unwrap_or_else(|| self.get_current_channel(..)
.unwrap_or(Channel::Release))`. -/
def executeActionChannel (cfgChannel : Option Channel) (marker : Option String)
    (reposExist fetchOk : Bool) (describeOut : Option String) : Channel :=
  match cfgChannel with
  | some c => c
  | none =>
    match get_current_channel marker reposExist fetchOk describeOut with
    | .ok c => c
    | .error _ => Channel.Release

/-! ## Latest-version resolver (src/main.rs lines 783-858) -/

/-- The channel filter of `get_latest_version`: Release keeps releases and
date versions, Master keeps everything parsed. -/
def shouldInclude (ch : Channel) (v : Version) : Bool :=
  match ch with
  | .Release => v.is_release || v.is_date_version
  | .Master => true

/-- The per-candidate pipeline shared by both methods: normalize, parse,
filter; failures drop the candidate without aborting. -/
def collectVersions (ch : Channel) (tags : List String) : List Version :=
  tags.filterMap (fun t =>
    match Version.parse (extract_version_from_git_describe t) with
    | .ok v => if shouldInclude ch v then some v else none
    | .error _ => none)

/-- `line.split("refs/tags/").nth(1)` on an `ls-remote` line: the text between
the first occurrence of `refs/tags/` and the next occurrence (or the end);
`none` when the line has no occurrence.  `afterFirstRefsTags` finds the
leftmost occurrence, `beforeNextRefsTags` cuts at the next one. -/
def afterFirstRefsTags : List Char → Option (List Char)
  | [] => none
  | c :: rest =>
    if (c :: rest).take 10 = refsTagsPat then some ((c :: rest).drop 10)
    else afterFirstRefsTags rest

/-- See `afterFirstRefsTags`. -/
def beforeNextRefsTags : List Char → List Char
  | [] => []
  | c :: rest =>
    if (c :: rest).take 10 = refsTagsPat then [] else c :: beforeNextRefsTags rest

/-- `line.split("refs/tags/").nth(1)`. -/
def tagPart (line : String) : Option String :=
  (afterFirstRefsTags line.data).map (fun cs => ⟨beforeNextRefsTags cs⟩)

/-- Method 1: tags from the `git ls-remote --tags --refs origin` lines (a
failed command contributes the empty line list). -/
def versionsMethod1 (ch : Channel) (remoteLines : List String) : List Version :=
  collectVersions ch (remoteLines.filterMap tagPart)

/-- Method 2: the first 100 lines of `git tag -l --sort=-version:refname`. -/
def versionsMethod2 (ch : Channel) (localLines : List String) : List Version :=
  collectVersions ch (localLines.take 100)

/-- `if versions_method1.len() >= versions_method2.len() { versions_method1 }
else { versions_method2 }`. -/
def selectWorkingSet (v1 v2 : List Version) : List Version :=
  if v1.length ≥ v2.length then v1 else v2

/-- One step of keeping the later-or-greater of two versions; folding it over
a list yields exactly the last element of the stable `versions.sort()`: a
maximum under `versionCmp`, ties resolved to the element appearing later. -/
def pickLater (acc w : Version) : Version :=
  if versionCmp w acc = .lt then acc else w

/-- `versions.sort(); versions.last()`: `none` exactly on the empty list. -/
def selectLatest : List Version → Option Version
  | [] => none
  | v :: rest => some (rest.foldl pickLater v)

/-- Outcome of `get_latest_version`: the returned raw string, the
"no valid versions found for channel" error, or the (unreachable) panic of
`versions.last().unwrap()`. -/
inductive ResolveResult
  | ok (s : String)
  | noValidVersions (ch : Channel)
  | panicUnwrap
deriving DecidableEq, Repr

/-- The tail of `get_latest_version` after both candidate lists are built:
error on an empty working set, otherwise the maximum element's `raw`. -/
def finalizeResolve (ch : Channel) (versions : List Version) : ResolveResult :=
  if versions.isEmpty then .noValidVersions ch
  else
    match selectLatest versions with
    | some v => .ok v.raw
    | none => .panicUnwrap

/-- `get_latest_version` over the two tag listings supplied by git. -/
def get_latest_version (ch : Channel) (remoteLines localLines : List String) :
    ResolveResult :=
  finalizeResolve ch
    (selectWorkingSet (versionsMethod1 ch remoteLines)
      (versionsMethod2 ch localLines))

/-! ## Spec-side grammar predicates (for stating the parse claims) -/

/-- The date grammar as an anchored whole-string predicate. -/
def matchesDateGrammar (s : String) : Bool :=
  (dateCaptures s).isSome

/-- The semver grammar as an anchored whole-string predicate. -/
def matchesSemverGrammar (s : String) : Bool :=
  (semverCaptures s).isSome

/-- Whether a numeric capture fits in `u32`. -/
def fitsU32 (s : String) : Bool :=
  decide (digitsToNat s.data ≤ U32_MAX)

/-- Whether all numeric captures of the grammar that `Version::parse` would
use (date first, then semver) fit in `u32`; vacuously true when neither
grammar matches. -/
def versionNumbersFit (s : String) : Bool :=
  match dateCaptures s with
  | some (a, b, c, _) => fitsU32 a && fitsU32 b && fitsU32 c
  | none =>
    match semverCaptures s with
    | some (a, b, c, _, _) => fitsU32 a && fitsU32 b && fitsU32 c
    | none => true

/-- `Except.isOk` of core may not exist at this toolchain; local helper. -/
def exceptIsOk : Except ε α → Bool
  | .ok _ => true
  | .error _ => false

/-! ## Spec-side predicates for stating normalizer stability -/

/-- Whether some suffix of the string matches the git-describe suffix pattern,
i.e. whether the replacement step of the normalizer would remove anything. -/
def hasGitSuffixAnywhere : List Char → Bool
  | [] => false
  | c :: rest => matchGitSuffix (c :: rest) || hasGitSuffixAnywhere rest

/-- Whether the leading-`v` strip of the normalizer would remove anything. -/
def startsWithVLong (cs : List Char) : Bool :=
  match cs with
  | c :: rest => c == 'v' && !rest.isEmpty
  | [] => false

/-! ## Comparator infrastructure lemmas -/

theorem ordThen_eq_lt {o1 o2 : Ordering} :
    ordThen o1 o2 = .lt ↔ o1 = .lt ∨ (o1 = .eq ∧ o2 = .lt) := by
  cases o1 <;> cases o2 <;> simp [ordThen]

theorem ordThen_eq_gt {o1 o2 : Ordering} :
    ordThen o1 o2 = .gt ↔ o1 = .gt ∨ (o1 = .eq ∧ o2 = .gt) := by
  cases o1 <;> cases o2 <;> simp [ordThen]

theorem ordThen_eq_eq {o1 o2 : Ordering} :
    ordThen o1 o2 = .eq ↔ o1 = .eq ∧ o2 = .eq := by
  cases o1 <;> cases o2 <;> simp [ordThen]

theorem ordThen_swap (o1 o2 : Ordering) :
    (ordThen o1 o2).swap = ordThen o1.swap o2.swap := by
  cases o1 <;> cases o2 <;> rfl

theorem natCmp_lt_iff {a b : Nat} : natCmp a b = .lt ↔ a < b := by
  unfold natCmp
  rcases Nat.lt_trichotomy a b with h | h | h
  · simp [h]
  · subst h; simp
  · rw [if_neg (by omega), if_pos h]; simp; omega

theorem natCmp_gt_iff {a b : Nat} : natCmp a b = .gt ↔ b < a := by
  unfold natCmp
  rcases Nat.lt_trichotomy a b with h | h | h
  · rw [if_pos h]; simp; omega
  · subst h; simp
  · rw [if_neg (by omega), if_pos h]; simp [h]

theorem natCmp_eq_iff {a b : Nat} : natCmp a b = .eq ↔ a = b := by
  unfold natCmp
  rcases Nat.lt_trichotomy a b with h | h | h
  · rw [if_pos h]; simp; omega
  · subst h; simp
  · rw [if_neg (by omega), if_pos h]; simp; omega

theorem natCmp_swap (a b : Nat) : (natCmp a b).swap = natCmp b a := by
  rcases h2 : natCmp b a with _ | _ | _
  · rw [natCmp_lt_iff] at h2
    have : natCmp a b = .gt := natCmp_gt_iff.mpr h2
    rw [this]; rfl
  · rw [natCmp_eq_iff] at h2
    have : natCmp a b = .eq := natCmp_eq_iff.mpr h2.symm
    rw [this]; rfl
  · rw [natCmp_gt_iff] at h2
    have : natCmp a b = .lt := natCmp_lt_iff.mpr h2
    rw [this]; rfl

theorem transCmp_natCmp : Batteries.TransCmp natCmp := by
  refine { symm := fun a b => natCmp_swap a b, le_trans := ?_ }
  · intro a b c h1 h2 h3
    rw [natCmp_gt_iff] at h3
    have hab : ¬ b < a := fun h => h1 (natCmp_gt_iff.mpr h)
    have hbc : ¬ c < b := fun h => h2 (natCmp_gt_iff.mpr h)
    omega

theorem charCmp_eq_iff {x y : Char} : natCmp x.toNat y.toNat = .eq ↔ x = y := by
  rw [natCmp_eq_iff]
  constructor
  · intro h
    exact Char.ext (UInt32.ext h)
  · intro h; rw [h]

theorem charListCmp_eq_iff : ∀ {xs ys : List Char}, charListCmp xs ys = .eq ↔ xs = ys := by
  intro xs
  induction xs with
  | nil => intro ys; cases ys <;> simp [charListCmp]
  | cons x xs ih =>
    intro ys
    cases ys with
    | nil => simp [charListCmp]
    | cons y ys =>
      simp only [charListCmp, ordThen_eq_eq, charCmp_eq_iff, ih, List.cons.injEq]

theorem charListCmp_swap : ∀ (xs ys : List Char),
    (charListCmp xs ys).swap = charListCmp ys xs := by
  intro xs
  induction xs with
  | nil => intro ys; cases ys <;> rfl
  | cons x xs ih =>
    intro ys
    cases ys with
    | nil => rfl
    | cons y ys =>
      simp only [charListCmp, ordThen_swap, natCmp_swap, ih]

theorem charListCmp_lt_trans : ∀ {xs ys zs : List Char},
    charListCmp xs ys = .lt → charListCmp ys zs = .lt → charListCmp xs zs = .lt := by
  intro xs
  induction xs with
  | nil =>
    intro ys zs h1 h2
    cases ys with
    | nil => cases h1
    | cons y ys =>
      cases zs with
      | nil => cases h2
      | cons z zs => rfl
  | cons x xs ih =>
    intro ys zs h1 h2
    cases ys with
    | nil => cases h1
    | cons y ys =>
      cases zs with
      | nil => cases h2
      | cons z zs =>
        simp only [charListCmp, ordThen_eq_lt] at h1 h2 ⊢
        rcases h1 with h1 | ⟨h1e, h1r⟩ <;> rcases h2 with h2 | ⟨h2e, h2r⟩
        · exact Or.inl (natCmp_lt_iff.mpr
            (Nat.lt_trans (natCmp_lt_iff.mp h1) (natCmp_lt_iff.mp h2)))
        · rw [natCmp_eq_iff] at h2e; rw [← h2e]; exact Or.inl h1
        · rw [natCmp_eq_iff] at h1e; rw [h1e]; exact Or.inl h2
        · rw [natCmp_eq_iff] at h1e h2e
          exact Or.inr ⟨natCmp_eq_iff.mpr (h1e.trans h2e), ih h1r h2r⟩

theorem transCmp_charListCmp : Batteries.TransCmp charListCmp := by
  refine { symm := fun xs ys => charListCmp_swap xs ys, le_trans := ?_ }
  intro xs ys zs h1 h2 h3
  rcases hab : charListCmp xs ys with _ | _ | _
  · rcases hbc : charListCmp ys zs with _ | _ | _
    · rw [charListCmp_lt_trans hab hbc] at h3; cases h3
    · rw [charListCmp_eq_iff] at hbc; rw [← hbc] at h3; rw [hab] at h3; cases h3
    · exact h2 hbc
  · rw [charListCmp_eq_iff] at hab; rw [hab] at h3; exact h2 h3
  · exact h1 hab

/-- Composing two lawful comparators with `ordThen` (first one decides unless
it is `eq`) preserves lawfulness. -/
theorem transCmp_ordThenComp {α : Type} {f g : α → α → Ordering}
    (hf : Batteries.TransCmp f) (hg : Batteries.TransCmp g) :
    Batteries.TransCmp (fun a b => ordThen (f a b) (g a b)) := by
  haveI hfi := hf
  haveI hgi := hg
  refine { symm := ?_, le_trans := ?_ }
  · intro a b
    simp only [ordThen_swap, hf.symm, hg.symm]
  · intro x y z h1 h2 h3
    have h1o : ¬ (f x y = .gt ∨ (f x y = .eq ∧ g x y = .gt)) :=
      fun hc => h1 (ordThen_eq_gt.mpr hc)
    have h2o : ¬ (f y z = .gt ∨ (f y z = .eq ∧ g y z = .gt)) :=
      fun hc => h2 (ordThen_eq_gt.mpr hc)
    have h3o : f x z = .gt ∨ (f x z = .eq ∧ g x z = .gt) := ordThen_eq_gt.mp h3
    rcases hxy : f x y with _ | _ | _
    · rcases hyz : f y z with _ | _ | _
      · rw [Batteries.TransCmp.lt_trans hxy hyz] at h3o
        rcases h3o with h3o | ⟨h3o, _⟩ <;> cases h3o
      · rw [Batteries.TransCmp.cmp_congr_right hyz] at hxy
        rw [hxy] at h3o
        rcases h3o with h3o | ⟨h3o, _⟩ <;> cases h3o
      · exact h2o (Or.inl hyz)
    · rcases hyz : f y z with _ | _ | _
      · rw [Batteries.TransCmp.cmp_congr_left hxy, hyz] at h3o
        rcases h3o with h3o | ⟨h3o, _⟩ <;> cases h3o
      · have hxz : f x z = .eq := by
          rw [Batteries.TransCmp.cmp_congr_left hxy]; exact hyz
        have hg1 : g x y ≠ .gt := fun hc => h1o (Or.inr ⟨hxy, hc⟩)
        have hg2 : g y z ≠ .gt := fun hc => h2o (Or.inr ⟨hyz, hc⟩)
        have hg3 : g x z ≠ .gt := Batteries.TransCmp.le_trans hg1 hg2
        rcases h3o with h3o | ⟨_, h3o⟩
        · rw [hxz] at h3o; cases h3o
        · exact hg3 h3o
      · exact h2o (Or.inl hyz)
    · exact h1o (Or.inl hxy)

/-- A comparator pulled back along a projection stays lawful. -/
theorem transCmp_comap {α β : Type} {f : β → β → Ordering}
    (hf : Batteries.TransCmp f) (k : α → β) :
    Batteries.TransCmp (fun a b => f (k a) (k b)) := by
  refine { symm := ?_, le_trans := ?_ }
  · intro a b; exact hf.symm (k a) (k b)
  · intro x y z h1 h2; exact hf.le_trans h1 h2

/-! ## Lawfulness of the `Version` comparator -/

theorem strCmp_eq_iff {x y : String} : strCmp x y = .eq ↔ x = y := by
  unfold strCmp
  rw [charListCmp_eq_iff]
  constructor
  · intro h; cases x; cases y; simp_all
  · intro h; rw [h]

theorem transCmp_strCmp : Batteries.TransCmp strCmp :=
  transCmp_comap transCmp_charListCmp String.data

/-- The dead `is_date_version` branch of the source collapses: `preCmp` is the
plain option comparison with `None` greatest. -/
theorem preCmp_some_some {a b : Version} {x y : String}
    (hx : a.pre_release = some x) (hy : b.pre_release = some y) :
    preCmp a b = strCmp x y := by
  unfold preCmp
  rw [hx, hy]
  simp

theorem transCmp_preCmp : Batteries.TransCmp preCmp := by
  refine { symm := ?_, le_trans := ?_ }
  · intro a b
    rcases ha : a.pre_release with _ | x <;> rcases hb : b.pre_release with _ | y
    · simp [preCmp, ha, hb]; rfl
    · simp [preCmp, ha, hb]; rfl
    · simp [preCmp, ha, hb]; rfl
    · rw [preCmp_some_some ha hb, preCmp_some_some hb ha]
      exact transCmp_strCmp.symm x y
  · intro a b c h1 h2
    rcases ha : a.pre_release with _ | x
    · rcases hb : b.pre_release with _ | y
      · rcases hc : c.pre_release with _ | z
        · simp [preCmp, ha, hc]
        · exfalso; apply h2; simp [preCmp, hb, hc]
      · exfalso; apply h1; simp [preCmp, ha, hb]
    · rcases hc : c.pre_release with _ | z
      · simp [preCmp, ha, hc]
      · rcases hb : b.pre_release with _ | y
        · exfalso; apply h2; simp [preCmp, hb, hc]
        · rw [preCmp_some_some ha hb] at h1
          rw [preCmp_some_some hb hc] at h2
          rw [preCmp_some_some ha hc]
          exact transCmp_strCmp.le_trans h1 h2

/-- `versionCmp` is a lawful comparator (symmetric under swap and
transitive). -/
theorem transCmp_versionCmp : Batteries.TransCmp versionCmp := by
  have h : Batteries.TransCmp (fun a b : Version =>
      ordThen (natCmp a.major b.major)
        (ordThen (natCmp a.minor b.minor)
          (ordThen (natCmp a.patch b.patch) (preCmp a b)))) :=
    transCmp_ordThenComp (transCmp_comap transCmp_natCmp Version.major)
      (transCmp_ordThenComp (transCmp_comap transCmp_natCmp Version.minor)
        (transCmp_ordThenComp (transCmp_comap transCmp_natCmp Version.patch)
          transCmp_preCmp))
  exact h

/-- The derived structural equality implies every field is equal. -/
theorem versionBeq_iff {a b : Version} : versionBeq a b = true ↔ a = b := by
  cases a; cases b
  simp [versionBeq, Version.mk.injEq, and_assoc]

/-! ## Normalizer stability lemmas -/

theorem afterLastSlash_no_slash : ∀ cs : List Char, '/' ∉ afterLastSlash cs := by
  intro cs
  induction cs with
  | nil => simp [afterLastSlash]
  | cons c rest ih =>
    unfold afterLastSlash
    by_cases hc : c = '/'
    · simp [hc]; exact ih
    · rw [if_neg hc]
      by_cases hr : '/' ∈ rest
      · simp [hr]; exact ih
      · rw [if_neg hr]
        intro hmem
        rcases List.mem_cons.mp hmem with h | h
        · exact hc h.symm
        · exact hr h

theorem stripGitSuffix_sublist : ∀ cs : List Char, (stripGitSuffix cs).Sublist cs := by
  intro cs
  induction cs with
  | nil => simp [stripGitSuffix]
  | cons c rest ih =>
    unfold stripGitSuffix
    split
    · exact List.nil_sublist _
    · exact List.Sublist.cons₂ c ih

theorem stripLeadingV_sublist (cs : List Char) : (stripLeadingV cs).Sublist cs := by
  cases cs with
  | nil => simp [stripLeadingV]
  | cons c rest =>
    simp only [stripLeadingV]
    split
    · exact List.sublist_cons_self c rest
    · exact List.Sublist.refl _

theorem stripRefsTags_of_no_slash {cs : List Char} (h : '/' ∉ cs) :
    stripRefsTags cs = cs := by
  unfold stripRefsTags
  rw [if_neg]
  intro hc
  apply h
  have : '/' ∈ cs.take 10 := by rw [hc]; simp [refsTagsPat]
  exact List.mem_of_mem_take this

theorem afterLastSlash_of_no_slash {cs : List Char} (h : '/' ∉ cs) :
    afterLastSlash cs = cs := by
  cases cs with
  | nil => rfl
  | cons c rest =>
    unfold afterLastSlash
    rw [if_neg, if_neg]
    · intro hr; exact h (List.mem_cons_of_mem c hr)
    · intro hc; exact h (hc ▸ List.mem_cons_self c rest)

theorem stripGitSuffix_of_no_match {cs : List Char}
    (h : hasGitSuffixAnywhere cs = false) : stripGitSuffix cs = cs := by
  induction cs with
  | nil => rfl
  | cons c rest ih =>
    unfold hasGitSuffixAnywhere at h
    rw [Bool.or_eq_false_iff] at h
    unfold stripGitSuffix
    rw [if_neg (by simp [h.1]), ih h.2]

theorem stripLeadingV_of_not_startsV {cs : List Char}
    (h : startsWithVLong cs = false) : stripLeadingV cs = cs := by
  cases cs with
  | nil => rfl
  | cons c rest =>
    simp only [startsWithVLong] at h
    simp only [stripLeadingV]
    rw [if_neg (by simp [h])]

theorem extract_no_slash (s : String) :
    '/' ∉ (extract_version_from_git_describe s).data := by
  unfold extract_version_from_git_describe
  intro hmem
  have h1 := (stripLeadingV_sublist
    (stripGitSuffix (afterLastSlash (stripRefsTags s.data)))).mem hmem
  have h2 := (stripGitSuffix_sublist (afterLastSlash (stripRefsTags s.data))).mem h1
  exact afterLastSlash_no_slash _ h2

/-! ## Parse lemmas -/

/-- A successful parse stores the input verbatim in `raw`. -/
theorem parse_ok_raw {s : String} {v : Version} (h : Version.parse s = .ok v) :
    v.raw = s := by
  unfold Version.parse at h
  repeat' split at h
  all_goals cases h
  all_goals rfl

/-- The empty string parses to the invalid-format error. -/
theorem parse_empty : Version.parse "" = .error (.invalidFormat "") := by rfl

/-- A successfully parsed string is nonempty. -/
theorem parse_ok_ne_empty {s : String} {v : Version}
    (h : Version.parse s = .ok v) : s ≠ "" := by
  intro he
  rw [he, parse_empty] at h
  cases h

/-! ## Resolver lemmas -/

theorem foldl_pickLater_mem : ∀ (l : List Version) (acc : Version),
    l.foldl pickLater acc = acc ∨ l.foldl pickLater acc ∈ l := by
  intro l
  induction l with
  | nil => intro acc; exact Or.inl rfl
  | cons w l ih =>
    intro acc
    rw [List.foldl_cons]
    rcases ih (pickLater acc w) with h | h
    · rw [h]
      unfold pickLater
      split
      · exact Or.inl rfl
      · exact Or.inr (List.mem_cons_self w l)
    · exact Or.inr (List.mem_cons_of_mem w h)

/-- Every member of the selected list is `≤` the folded maximum. -/
theorem foldl_pickLater_max : ∀ (l : List Version) (acc : Version),
    versionCmp acc (l.foldl pickLater acc) ≠ .gt ∧
      ∀ w ∈ l, versionCmp w (l.foldl pickLater acc) ≠ .gt := by
  haveI := transCmp_versionCmp
  intro l
  induction l with
  | nil =>
    intro acc
    refine ⟨?_, by simp⟩
    simp only [List.foldl_nil]
    have hrefl : versionCmp acc acc = .eq := Batteries.OrientedCmp.cmp_refl
    rw [hrefl]
    simp
  | cons w l ih =>
    intro acc
    rcases ih (pickLater acc w) with ⟨ih1, ih2⟩
    have haccW : versionCmp acc (pickLater acc w) ≠ .gt := by
      unfold pickLater
      split
      · have hrefl : versionCmp acc acc = .eq := Batteries.OrientedCmp.cmp_refl
        rw [hrefl]; simp
      · rename_i hnlt
        intro hgt
        exact hnlt (Batteries.OrientedCmp.cmp_eq_gt.mp hgt)
    have hwW : versionCmp w (pickLater acc w) ≠ .gt := by
      unfold pickLater
      split
      · rename_i hlt
        rw [hlt]; simp
      · have hrefl : versionCmp w w = .eq := Batteries.OrientedCmp.cmp_refl
        rw [hrefl]; simp
    constructor
    · rw [List.foldl_cons]
      exact Batteries.TransCmp.le_trans haccW ih1
    · intro x hx
      rcases List.mem_cons.mp hx with hx | hx
      · subst hx
        rw [List.foldl_cons]
        exact Batteries.TransCmp.le_trans hwW ih1
      · rw [List.foldl_cons]
        exact ih2 x hx

/-- `selectLatest` returns a member of the list. -/
theorem selectLatest_mem {vs : List Version} {v : Version}
    (h : selectLatest vs = some v) : v ∈ vs := by
  cases vs with
  | nil => cases h
  | cons w l =>
    unfold selectLatest at h
    injection h with h
    rcases foldl_pickLater_mem l w with hm | hm
    · rw [← h, hm]; exact List.mem_cons_self w l
    · rw [← h]; exact List.mem_cons_of_mem w hm

/-- `selectLatest` returns a maximum of the list. -/
theorem selectLatest_max {vs : List Version} {v : Version}
    (h : selectLatest vs = some v) : ∀ w ∈ vs, versionCmp w v ≠ .gt := by
  cases vs with
  | nil => cases h
  | cons x l =>
    unfold selectLatest at h
    injection h with h
    intro w hw
    rcases List.mem_cons.mp hw with hw | hw
    · subst hw; rw [← h]; exact (foldl_pickLater_max l w).1
    · rw [← h]; exact (foldl_pickLater_max l x).2 w hw

/-- `selectLatest` is `none` exactly on the empty list. -/
theorem selectLatest_eq_none_iff {vs : List Version} :
    selectLatest vs = none ↔ vs = [] := by
  cases vs <;> simp [selectLatest]

/-- Members of `collectVersions` come from normalizing and parsing an input
tag that survives the channel filter. -/
theorem collectVersions_mem {ch : Channel} {tags : List String} {v : Version}
    (h : v ∈ collectVersions ch tags) :
    ∃ t ∈ tags, Version.parse (extract_version_from_git_describe t) = .ok v ∧
      shouldInclude ch v = true := by
  unfold collectVersions at h
  rcases List.mem_filterMap.mp h with ⟨t, ht, hf⟩
  refine ⟨t, ht, ?_⟩
  split at hf
  · rename_i w hp
    split at hf
    · rename_i hsi
      injection hf with hf
      subst hf
      exact ⟨hp, hsi⟩
    · cases hf
  · cases hf

/-- Splitting membership in the selected working set into the two methods. -/
theorem mem_selectWorkingSet {v1 v2 : List Version} {v : Version}
    (h : v ∈ selectWorkingSet v1 v2) : v ∈ v1 ∨ v ∈ v2 := by
  unfold selectWorkingSet at h
  split at h
  · exact Or.inl h
  · exact Or.inr h

/-- A successful resolution means the working set has a `selectLatest` element
whose `raw` is the result. -/
theorem get_latest_version_ok_elim {ch : Channel} {rl ll : List String}
    {s : String} (h : get_latest_version ch rl ll = .ok s) :
    ∃ v, selectLatest (selectWorkingSet (versionsMethod1 ch rl)
        (versionsMethod2 ch ll)) = some v ∧ s = v.raw := by
  unfold get_latest_version finalizeResolve at h
  split at h
  · cases h
  · split at h
    · rename_i v hv
      injection h with h
      exact ⟨v, hv, h.symm⟩
    · cases h

/-- Every working-set element arises by normalizing and parsing some tag from
the two inputs. -/
theorem workingSet_version_from_tag {ch : Channel} {rl ll : List String}
    {v : Version}
    (h : v ∈ selectWorkingSet (versionsMethod1 ch rl) (versionsMethod2 ch ll)) :
    ∃ t, (t ∈ rl.filterMap tagPart ∨ t ∈ ll.take 100) ∧
      Version.parse (extract_version_from_git_describe t) = .ok v := by
  rcases mem_selectWorkingSet h with h | h
  · unfold versionsMethod1 at h
    rcases collectVersions_mem h with ⟨t, ht, hp, _⟩
    exact ⟨t, Or.inl ht, hp⟩
  · unfold versionsMethod2 at h
    rcases collectVersions_mem h with ⟨t, ht, hp, _⟩
    exact ⟨t, Or.inr ht, hp⟩

/-- A string that no step of the normalizer can reduce further is a fixed
point of the normalizer. -/
theorem extract_stable {u : String} (h0 : '/' ∉ u.data)
    (h1 : hasGitSuffixAnywhere u.data = false)
    (h2 : startsWithVLong u.data = false) :
    extract_version_from_git_describe u = u := by
  unfold extract_version_from_git_describe
  rw [stripRefsTags_of_no_slash h0, afterLastSlash_of_no_slash h0,
      stripGitSuffix_of_no_match h1, stripLeadingV_of_not_startsV h2]

/-- `parseU32` succeeds exactly on captures fitting `u32`. -/
theorem parseU32_cases (x : String) :
    (fitsU32 x = true ∧ parseU32 x = .ok (digitsToNat x.data)) ∨
      (fitsU32 x = false ∧ parseU32 x = .error .intParse) := by
  unfold parseU32 fitsU32
  by_cases h : digitsToNat x.data ≤ U32_MAX
  · left; exact ⟨by simp [h], by rw [if_pos h]⟩
  · right; exact ⟨by simp [h], by rw [if_neg h]⟩

/-! ## The claims -/

/-- Claim C3 (counterexample): the describe normalizer is not idempotent: a
second application strips a further leading `v` (input `vv1`), and a further
`-N-gHEX` suffix (input `1.2.3-4-gabc-5-gdef`). -/
theorem c3_counterexample :
    extract_version_from_git_describe "vv1" = "v1" ∧
    extract_version_from_git_describe
      (extract_version_from_git_describe "vv1") = "1" ∧
    extract_version_from_git_describe
        (extract_version_from_git_describe "vv1") ≠
      extract_version_from_git_describe "vv1" ∧
    extract_version_from_git_describe "1.2.3-4-gabc-5-gdef" = "1.2.3-4-gabc" ∧
    extract_version_from_git_describe
      (extract_version_from_git_describe "1.2.3-4-gabc-5-gdef") = "1.2.3" := by
  refine ⟨by decide, by decide, by decide, by decide, by decide⟩

/-- Claim C3 (amended): the normalizer is idempotent on exactly the inputs
whose normal form cannot be reduced further, i.e. whenever the first pass
leaves no suffix matching `-\d+-g[a-f0-9]+$` and no leading `v` before a
nonempty remainder; in general a second application can strip further (see
the counterexample). -/
theorem c3_normalizer_idempotent_on_stable (s : String)
    (h1 : hasGitSuffixAnywhere (extract_version_from_git_describe s).data = false)
    (h2 : startsWithVLong (extract_version_from_git_describe s).data = false) :
    extract_version_from_git_describe (extract_version_from_git_describe s) =
      extract_version_from_git_describe s :=
  extract_stable (extract_no_slash s) h1 h2

/-- Witness for the amended C3 at `refs/tags/v1.2.3-5-gabc`, whose normal
form `1.2.3` is stable. -/
theorem c3_witness :
    hasGitSuffixAnywhere
        (extract_version_from_git_describe "refs/tags/v1.2.3-5-gabc").data = false ∧
      startsWithVLong
        (extract_version_from_git_describe "refs/tags/v1.2.3-5-gabc").data = false ∧
      extract_version_from_git_describe
          (extract_version_from_git_describe "refs/tags/v1.2.3-5-gabc") =
        extract_version_from_git_describe "refs/tags/v1.2.3-5-gabc" :=
  ⟨by decide, by decide,
    c3_normalizer_idempotent_on_stable "refs/tags/v1.2.3-5-gabc"
      (by decide) (by decide)⟩

/-- Claim C4 (counterexample): the derived `==` of `Version` compares
`build_metadata` (and `raw`); replacing the build metadata of one operand of
a parsed version flips equality from true to false even though the comparator
still answers `eq`. -/
theorem c4_counterexample :
    Version.parse "1.0.0" = .ok ⟨1, 0, 0, none, none, "1.0.0"⟩ ∧
    versionBeq ⟨1, 0, 0, none, none, "1.0.0"⟩
      ⟨1, 0, 0, none, none, "1.0.0"⟩ = true ∧
    versionBeq ⟨1, 0, 0, none, none, "1.0.0"⟩
      (Version.withBuild ⟨1, 0, 0, none, none, "1.0.0"⟩ (some "x")) = false ∧
    versionCmp ⟨1, 0, 0, none, none, "1.0.0"⟩
      (Version.withBuild ⟨1, 0, 0, none, none, "1.0.0"⟩ (some "x")) = .eq := by
  refine ⟨by decide, by decide, by decide, by decide⟩

/-- Claim C4 (amended): the comparison `cmp(a, b)` — and therefore
comparator-equality `cmp(a, b) = eq` — is unaffected by replacing the
`build_metadata` of either operand; the structural equality `a == b`,
however, does compare `build_metadata` (see the counterexample). -/
theorem c4_cmp_ignores_build_metadata (a b : Version) (m1 m2 : Option String) :
    versionCmp (a.withBuild m1) (b.withBuild m2) = versionCmp a b ∧
      (versionCmp (a.withBuild m1) (b.withBuild m2) = .eq ↔
        versionCmp a b = .eq) := by
  cases a
  cases b
  exact ⟨rfl, Iff.rfl⟩

/-- Claim C9 (counterexample): for the parsed versions of `1.0.0` and
`1.0.0+x`, none of `a < b`, `a == b`, `a > b` holds: the comparator answers
`eq` (so neither `lt` nor `gt`), while the derived structural `==` is false
because `build_metadata` and `raw` differ. -/
theorem c9_counterexample :
    Version.parse "1.0.0" = .ok ⟨1, 0, 0, none, none, "1.0.0"⟩ ∧
    Version.parse "1.0.0+x" = .ok ⟨1, 0, 0, none, some "x", "1.0.0+x"⟩ ∧
    versionCmp ⟨1, 0, 0, none, none, "1.0.0"⟩
      ⟨1, 0, 0, none, some "x", "1.0.0+x"⟩ ≠ .lt ∧
    versionCmp ⟨1, 0, 0, none, none, "1.0.0"⟩
      ⟨1, 0, 0, none, some "x", "1.0.0+x"⟩ ≠ .gt ∧
    versionBeq ⟨1, 0, 0, none, none, "1.0.0"⟩
      ⟨1, 0, 0, none, some "x", "1.0.0+x"⟩ = false := by
  refine ⟨by decide, by decide, by decide, by decide, by decide⟩

/-- Claim C9 (amended): with equality read as comparator-equality
(`cmp(a, b) = eq`), the order is total and lawful: `lt` and `gt` are mirror
images, `eq` is symmetric and reflexive, `lt` is transitive, and structural
`==` implies comparator-equality (the converse fails, see the
counterexample). -/
theorem c9_comparator_total_order (a b c : Version) :
    (versionCmp a b = .lt ↔ versionCmp b a = .gt) ∧
    (versionCmp a b = .eq ↔ versionCmp b a = .eq) ∧
    versionCmp a a = .eq ∧
    (versionCmp a b = .lt → versionCmp b c = .lt → versionCmp a c = .lt) ∧
    (versionBeq a b = true → versionCmp a b = .eq) := by
  haveI := transCmp_versionCmp
  refine ⟨?_, ?_, ?_, ?_, ?_⟩
  · exact Iff.symm Batteries.OrientedCmp.cmp_eq_gt
  · exact Batteries.OrientedCmp.cmp_eq_eq_symm
  · exact Batteries.OrientedCmp.cmp_refl
  · exact fun h1 h2 => Batteries.TransCmp.lt_trans h1 h2
  · intro h
    rw [versionBeq_iff] at h
    subst h
    exact Batteries.OrientedCmp.cmp_refl

/-- Witness for the amended C9 at concrete parsed versions. -/
theorem c9_witness :
    versionCmp ⟨1, 0, 0, none, none, "1.0.0"⟩
      ⟨3, 0, 0, none, none, "3.0.0"⟩ = .lt ∧
    versionCmp ⟨1, 0, 0, none, none, "1.0.0"⟩
      ⟨1, 0, 0, none, none, "1.0.0"⟩ = .eq := by
  constructor
  · exact (c9_comparator_total_order ⟨1, 0, 0, none, none, "1.0.0"⟩
      ⟨2, 0, 0, none, none, "2.0.0"⟩ ⟨3, 0, 0, none, none, "3.0.0"⟩).2.2.2.1
      (by decide) (by decide)
  · exact (c9_comparator_total_order ⟨1, 0, 0, none, none, "1.0.0"⟩
      ⟨1, 0, 0, none, none, "1.0.0"⟩ ⟨1, 0, 0, none, none, "1.0.0"⟩).2.2.2.2
      (by decide)

/-- Claim C10: method 2 of `get_latest_version` reads at most the first 100
lines of the local tag listing: lines beyond the first 100 never contribute a
candidate, whatever they contain. -/
theorem c10_method2_bounded (ch : Channel) (front back : List String)
    (h : front.length = 100) :
    versionsMethod2 ch (front ++ back) = versionsMethod2 ch front := by
  unfold versionsMethod2
  congr 1
  rw [← h, List.take_left, List.take_length]

/-- Witness for C10: a 101-line listing where line 101 is ignored. -/
theorem c10_witness :
    versionsMethod2 Channel.Master (List.replicate 100 "1.0.0" ++ ["9.9.9"]) =
      versionsMethod2 Channel.Master (List.replicate 100 "1.0.0") :=
  c10_method2_bounded Channel.Master (List.replicate 100 "1.0.0") ["9.9.9"]
    (by simp)

/-- Claim C1 (counterexample): for the remote line `hash<TAB>refs/tags/v1.1.0`
the resolver returns `1.1.0` — the v-stripped normalization — which is a
member neither of the input line list nor of the extracted tag list
(`v1.1.0`): the returned string is not the tag text as it appeared in the
input. -/
theorem c1_counterexample :
    get_latest_version Channel.Master ["hash\trefs/tags/v1.1.0"] [] =
      .ok "1.1.0" ∧
    List.filterMap tagPart ["hash\trefs/tags/v1.1.0"] = ["v1.1.0"] ∧
    "1.1.0" ∉ (["hash\trefs/tags/v1.1.0"] ++ ["v1.1.0"] ++ ([] : List String)) := by
  refine ⟨by rfl, by rfl, by decide⟩

/-- Claim C1 (amended): whenever `get_latest_version` succeeds, the returned
string is the `raw` field of a maximum element of the selected working set,
and it equals the describe-normalized form
(`extract_version_from_git_describe`) of some tag drawn from the union of the
two inputs — i.e. membership holds in the union of the two *normalized*
candidate lists, not necessarily in the original tag texts (the normalization
may strip a `v` prefix, a `-N-gHEX` suffix, a `refs/tags/` prefix or a
path-like segment). -/
theorem c1_result_is_normalized_candidate (ch : Channel)
    (remoteLines localLines : List String) (s : String)
    (h : get_latest_version ch remoteLines localLines = .ok s) :
    (∃ v, v ∈ selectWorkingSet (versionsMethod1 ch remoteLines)
        (versionsMethod2 ch localLines) ∧ s = v.raw ∧
      ∀ w ∈ selectWorkingSet (versionsMethod1 ch remoteLines)
        (versionsMethod2 ch localLines), versionCmp w v ≠ .gt) ∧
    (∃ t, (t ∈ remoteLines.filterMap tagPart ∨ t ∈ localLines.take 100) ∧
      s = extract_version_from_git_describe t) := by
  rcases get_latest_version_ok_elim h with ⟨v, hv, hs⟩
  have hmem := selectLatest_mem hv
  have hmax := selectLatest_max hv
  rcases workingSet_version_from_tag hmem with ⟨t, ht, hp⟩
  exact ⟨⟨v, hmem, hs, hmax⟩, ⟨t, ht, by rw [hs, parse_ok_raw hp]⟩⟩

/-- Witness for the amended C1 at the counterexample input. -/
theorem c1_witness :
    (∃ v, v ∈ selectWorkingSet
        (versionsMethod1 Channel.Master ["hash\trefs/tags/v1.1.0"])
        (versionsMethod2 Channel.Master []) ∧ "1.1.0" = v.raw ∧
      ∀ w ∈ selectWorkingSet
        (versionsMethod1 Channel.Master ["hash\trefs/tags/v1.1.0"])
        (versionsMethod2 Channel.Master []), versionCmp w v ≠ .gt) ∧
    (∃ t, (t ∈ List.filterMap tagPart ["hash\trefs/tags/v1.1.0"] ∨
        t ∈ ([] : List String).take 100) ∧
      "1.1.0" = extract_version_from_git_describe t) :=
  c1_result_is_normalized_candidate Channel.Master ["hash\trefs/tags/v1.1.0"]
    [] "1.1.0" (by rfl)

/-- Claim C2 (counterexample): with the marker file present and holding
`nightly`, `get_current_channel` does fail with the invalid-channel error,
but the caller `execute_action` (given no `--channel` flag) silently
substitutes `Release` for exactly this case instead of propagating the
failure. -/
theorem c2_counterexample :
    get_current_channel (some "nightly") true true none =
      .error "Invalid channel: nightly. Available channels: master, release" ∧
    executeActionChannel none (some "nightly") true true none =
      Channel.Release := by
  refine ⟨by rfl, by rfl⟩

/-- Claim C2 (amended): whenever the marker file exists and its trimmed
content is neither `master` nor `release` case-insensitively,
`get_current_channel` fails with the invalid-channel error (the shape-based
inference is not consulted); however, the channel determination of
`execute_action` silently substitutes `Release` on any `get_current_channel`
failure, including this invalid-marker case — the silent fallback is not
limited to the absence of the marker file. -/
theorem c2_invalid_marker_error_but_caller_falls_back (content : String)
    (h1 : toLowerStr (trimStr content) ≠ "master")
    (h2 : toLowerStr (trimStr content) ≠ "release") :
    (∀ (re fe : Bool) (dout : Option String),
      get_current_channel (some content) re fe dout =
        .error ("Invalid channel: " ++ trimStr content ++
          ". Available channels: master, release")) ∧
    (∀ (re fe : Bool) (dout : Option String),
      executeActionChannel none (some content) re fe dout = Channel.Release) := by
  have hfs : Channel.fromStr (trimStr content) =
      .error ("Invalid channel: " ++ trimStr content ++
        ". Available channels: master, release") := by
    unfold Channel.fromStr
    rw [if_neg h1, if_neg h2]
  have hgc : ∀ (re fe : Bool) (dout : Option String),
      get_current_channel (some content) re fe dout =
        .error ("Invalid channel: " ++ trimStr content ++
          ". Available channels: master, release") := by
    intro re fe dout
    show Channel.fromStr (trimStr content) = _
    exact hfs
  refine ⟨hgc, ?_⟩
  intro re fe dout
  show (match get_current_channel (some content) re fe dout with
    | .ok c => c
    | .error _ => Channel.Release) = Channel.Release
  rw [hgc re fe dout]

/-- Witness for the amended C2 at marker content `nightly`. -/
theorem c2_witness :
    get_current_channel (some "nightly") false true (some "v1.0.0") =
      .error "Invalid channel: nightly. Available channels: master, release" ∧
    executeActionChannel none (some "nightly") false true (some "v1.0.0") =
      Channel.Release :=
  ⟨(c2_invalid_marker_error_but_caller_falls_back "nightly" (by decide)
      (by decide)).1 false true (some "v1.0.0"),
    (c2_invalid_marker_error_but_caller_falls_back "nightly" (by decide)
      (by decide)).2 false true (some "v1.0.0")⟩

/-- Claim C5 (counterexample): `4294967296.0.0` matches the semver grammar in
its entirety (each component is a nonnegative integer), yet `Version::parse`
fails — with the propagated integer-parse error, not the invalid-format
error — because 4294967296 overflows `u32`. -/
theorem c5_counterexample :
    matchesSemverGrammar "4294967296.0.0" = true ∧
    Version.parse "4294967296.0.0" = .error .intParse ∧
    Version.parse "4294967296.0.0" ≠
      .error (.invalidFormat "4294967296.0.0") := by
  refine ⟨by rfl, by rfl, by decide⟩

/-- Claim C5 (amended): `Version::parse` fails exactly when the anchored input
matches neither grammar or a matched numeric component overflows `u32`; the
"invalid version format" error carrying the input occurs exactly in the
no-match case (overflow raises the distinct integer-parse error), and parse
succeeds exactly when a grammar matches and its numeric captures fit
`u32`. -/
theorem c5_parse_error_characterization (s : String) :
    (exceptIsOk (Version.parse s) =
      ((matchesDateGrammar s || matchesSemverGrammar s) &&
        versionNumbersFit s)) ∧
    (Version.parse s = .error (.invalidFormat s) ↔
      matchesDateGrammar s = false ∧ matchesSemverGrammar s = false) := by
  unfold Version.parse matchesDateGrammar matchesSemverGrammar versionNumbersFit
  rcases hd : dateCaptures s with _ | ⟨a, b, c, d⟩
  · rcases hs : semverCaptures s with _ | ⟨a, b, c, pre, build⟩
    · simp [exceptIsOk]
    · simp only [Option.isSome_some, Option.isSome_none, Bool.false_or,
        Bool.true_and]
      rcases parseU32_cases a with ⟨ha1, ha2⟩ | ⟨ha1, ha2⟩ <;> rw [ha2] <;>
        [skip; simp [exceptIsOk, ha1]]
      rcases parseU32_cases b with ⟨hb1, hb2⟩ | ⟨hb1, hb2⟩ <;> rw [hb2] <;>
        [skip; simp [exceptIsOk, ha1, hb1]]
      rcases parseU32_cases c with ⟨hc1, hc2⟩ | ⟨hc1, hc2⟩ <;> rw [hc2] <;>
        simp [exceptIsOk, ha1, hb1, hc1]
  · simp only [Option.isSome_some, Bool.true_or, Bool.true_and]
    rcases parseU32_cases a with ⟨ha1, ha2⟩ | ⟨ha1, ha2⟩ <;> rw [ha2] <;>
      [skip; simp [exceptIsOk, ha1]]
    rcases parseU32_cases b with ⟨hb1, hb2⟩ | ⟨hb1, hb2⟩ <;> rw [hb2] <;>
      [skip; simp [exceptIsOk, ha1, hb1]]
    rcases parseU32_cases c with ⟨hc1, hc2⟩ | ⟨hc1, hc2⟩ <;> rw [hc2] <;>
      simp [exceptIsOk, ha1, hb1, hc1]

/-- Claim C6: channel inference from a successfully parsed version follows
the policy: date version ⇒ Release; otherwise plain release ⇒ Master;
otherwise (non-date pre-release) ⇒ Release. -/
theorem c6_channel_inference_policy (s : String) (v : Version)
    (h : Version.parse s = .ok v) :
    channelFromDescribe s = classifyChannel v ∧
    (v.is_date_version = true → classifyChannel v = Channel.Release) ∧
    (v.is_date_version = false → v.is_release = true →
      classifyChannel v = Channel.Master) ∧
    (v.is_date_version = false → v.is_release = false →
      classifyChannel v = Channel.Release) := by
  refine ⟨?_, ?_, ?_, ?_⟩
  · unfold channelFromDescribe
    rw [h]
  · intro hd
    unfold classifyChannel
    rw [if_pos hd]
  · intro hd hr
    unfold classifyChannel
    rw [if_neg (by simp [hd]), if_pos hr]
  · intro hd hr
    unfold classifyChannel
    rw [if_neg (by simp [hd]), if_neg (by simp [hr])]

/-- Witness for C6 at one input of each of the three shapes. -/
theorem c6_witness :
    channelFromDescribe "1.2.3-20240901" = Channel.Release ∧
    channelFromDescribe "1.2.3" = Channel.Master ∧
    channelFromDescribe "1.2.3-beta.1" = Channel.Release := by
  have h1 := c6_channel_inference_policy "1.2.3-20240901"
    ⟨1, 2, 3, some "20240901", none, "1.2.3-20240901"⟩ (by rfl)
  have h2 := c6_channel_inference_policy "1.2.3"
    ⟨1, 2, 3, none, none, "1.2.3"⟩ (by rfl)
  have h3 := c6_channel_inference_policy "1.2.3-beta.1"
    ⟨1, 2, 3, some "beta.1", none, "1.2.3-beta.1"⟩ (by rfl)
  exact ⟨h1.1.trans (h1.2.1 (by decide)),
    h2.1.trans (h2.2.2.1 (by decide) (by decide)),
    h3.1.trans (h3.2.2.2 (by decide) (by decide))⟩

/-- Claim C7: the resolver selects one filtered list wholesale: the one with
the strictly larger surviving count, and the first (ls-remote-derived) list
on ties. -/
theorem c7_selection_policy (ch : Channel) (remoteLines localLines : List String) :
    get_latest_version ch remoteLines localLines =
      finalizeResolve ch (selectWorkingSet (versionsMethod1 ch remoteLines)
        (versionsMethod2 ch localLines)) ∧
    ((versionsMethod1 ch remoteLines).length >
        (versionsMethod2 ch localLines).length →
      selectWorkingSet (versionsMethod1 ch remoteLines)
        (versionsMethod2 ch localLines) = versionsMethod1 ch remoteLines) ∧
    ((versionsMethod2 ch localLines).length >
        (versionsMethod1 ch remoteLines).length →
      selectWorkingSet (versionsMethod1 ch remoteLines)
        (versionsMethod2 ch localLines) = versionsMethod2 ch localLines) ∧
    ((versionsMethod1 ch remoteLines).length =
        (versionsMethod2 ch localLines).length →
      selectWorkingSet (versionsMethod1 ch remoteLines)
        (versionsMethod2 ch localLines) = versionsMethod1 ch remoteLines) := by
  refine ⟨rfl, ?_, ?_, ?_⟩
  · intro h
    unfold selectWorkingSet
    rw [if_pos (by omega)]
  · intro h
    unfold selectWorkingSet
    rw [if_neg (by omega)]
  · intro h
    unfold selectWorkingSet
    rw [if_pos (by omega)]

/-- Witness for C7: a strictly-larger case and a tie case. -/
theorem c7_witness :
    selectWorkingSet (versionsMethod1 Channel.Master ["h\trefs/tags/1.0.0"])
        (versionsMethod2 Channel.Master []) =
      versionsMethod1 Channel.Master ["h\trefs/tags/1.0.0"] ∧
    selectWorkingSet (versionsMethod1 Channel.Master [])
        (versionsMethod2 Channel.Master []) =
      versionsMethod1 Channel.Master [] :=
  ⟨(c7_selection_policy Channel.Master ["h\trefs/tags/1.0.0"] []).2.1
      (by decide),
    (c7_selection_policy Channel.Master [] []).2.2.2 (by decide)⟩

/-- Claim C8: resolution fails with the no-valid-versions error exactly when
the selected working set is empty, never reaches the `unwrap` panic, and
never returns the empty string. -/
theorem c8_empty_error_no_panic (ch : Channel)
    (remoteLines localLines : List String) :
    (get_latest_version ch remoteLines localLines = .noValidVersions ch ↔
      selectWorkingSet (versionsMethod1 ch remoteLines)
        (versionsMethod2 ch localLines) = []) ∧
    get_latest_version ch remoteLines localLines ≠ .panicUnwrap ∧
    (∀ s, get_latest_version ch remoteLines localLines = .ok s → s ≠ "") := by
  refine ⟨?_, ?_, ?_⟩
  · unfold get_latest_version finalizeResolve
    split
    · rename_i hemp
      simp only [List.isEmpty_iff] at hemp
      simp [hemp]
    · rename_i hemp
      simp only [List.isEmpty_iff] at hemp
      split
      · simp [hemp]
      · rename_i hnone
        exact absurd (selectLatest_eq_none_iff.mp hnone) hemp
  · unfold get_latest_version finalizeResolve
    split
    · simp
    · rename_i hemp
      simp only [List.isEmpty_iff] at hemp
      split
      · simp
      · rename_i hnone
        exact absurd (selectLatest_eq_none_iff.mp hnone) hemp
  · intro s h he
    rcases get_latest_version_ok_elim h with ⟨v, hv, hs⟩
    rcases workingSet_version_from_tag (selectLatest_mem hv) with ⟨t, _, hp⟩
    have hraw := parse_ok_raw hp
    have hne := parse_ok_ne_empty hp
    rw [he] at hs
    exact hne (by rw [← hraw, ← hs])

/-- Witness for C8: the error case on empty inputs and a nonempty result. -/
theorem c8_witness :
    get_latest_version Channel.Master [] [] =
      .noValidVersions Channel.Master ∧
    "1.0.0" ≠ "" :=
  ⟨(c8_empty_error_no_panic Channel.Master [] []).1.mpr (by rfl),
    (c8_empty_error_no_panic Channel.Master ["h\trefs/tags/1.0.0"] []).2.2
      "1.0.0" (by rfl)⟩

end HoloMotion
